import Mathlib

/-!
Verification of the `phonetree` navigation engine
(`src/phonetree/phonetree.py`) against its natural-language
specification.

The development shallowly embeds the source:

* `similarity` embeds `Indel.normalized_similarity` (insert/delete edit
  distance, i.e. `len₁ + len₂ - 2·LCS`, normalized by combined length),
  with rationals standing for Python floats.
* `get_item` embeds `Menu._get_item`, including Python's `max` over
  tuples `(ratio, (label, target))`: on equal ratios the tuple comparison
  falls through to the label (code-point lexicographic order) and then to
  the target objects, where Python raises `TypeError` (`.crash` /
  `Except.error` here).
* `items_list` embeds the `Menu._items_list` property.
* `menuLoop`/`menuNext`/`actionNext`/`runSteps` embed `Menu.next`,
  `Action.next` and `Menu.communicate`.  The `ask`/`tell` capabilities
  are embedded as a `World` holding the remaining input stream (an
  element `none` is `ask` returning `None`) and a log of displayed lines.
  Callbacks, post-normalization, are state-and-world transformers.
* `PyCallback`/`bindArgs`/`invoke`/`normalizeCb` embed Python call
  binding and `normalize_callback`.
* `BuildOp`/`applyOp` embed the builder surface (`Menu.menu`,
  `Menu.action`, callback assignment) over an arena of nodes.
-/

namespace Phonetree

/-! ## Similarity scorer (`similarity`, rapidfuzz Indel) -/

/-- Length of a longest common subsequence of two character lists. -/
def lcs : List Char → List Char → Nat
  | [], _ => 0
  | _ :: _, [] => 0
  | a :: as, b :: bs =>
    if a = b then lcs as bs + 1
    else max (lcs (a :: as) bs) (lcs as (b :: bs))
termination_by x y => x.length + y.length
decreasing_by all_goals simp_arith

/-- Indel (insert/delete) edit distance between two character lists. -/
def indelDist (a b : List Char) : Nat :=
  a.length + b.length - 2 * lcs a b

/-- `similarity(s1, s2)`: normalized Indel similarity, in `[0, 1]`.
Embeds `Indel.normalized_similarity`: `1 - dist/(len₁+len₂)` and `1.0`
when both strings are empty. -/
def similarity (s1 s2 : String) : ℚ :=
  if s1.data.length + s2.data.length = 0 then 1
  else 1 - (indelDist s1.data s2.data : ℚ) / ((s1.data.length + s2.data.length : Nat) : ℚ)

/-- Python `str.lower()` (ASCII case fold, as in `Char.toLower`). -/
def strLower (s : String) : String :=
  ⟨s.data.map Char.toLower⟩

/-! ## Tree node references and the selection resolver (`Menu._get_item`) -/

/-- A reference to a node of the tree: menus and actions live in an
arena and are referred to by index.  The terminal sentinel (Python
`None`) is `Option.none` at use sites. -/
inductive NodeRef where
  | menu (i : Nat)
  | action (i : Nat)
deriving DecidableEq

/-- Python string `<` (code-point lexicographic), structurally. -/
def charsLtB : List Char → List Char → Bool
  | [], [] => false
  | [], _ :: _ => true
  | _ :: _, [] => false
  | a :: as, b :: bs =>
    if a < b then true
    else if b < a then false
    else charsLtB as bs

/-- Python `>` on the tuples `(ratio, (label, target))` produced in the
first pass of `Menu._get_item`.  `pyGT3 x c` decides `x > c`: compare
ratios, then labels, then targets — comparing two distinct targets
(`Menu`/`Action` objects or `None`) raises `TypeError` (`.error`). -/
def pyGT3 (x c : ℚ × String × Option NodeRef) : Except Unit Bool :=
  if x.1 = c.1 then
    if x.2.1 = c.2.1 then
      if x.2.2 = c.2.2 then .ok false else .error ()
    else .ok (charsLtB c.2.1.data x.2.1.data)
  else .ok (decide (c.1 < x.1))

/-- Python `>` on the tuples `(ratio, index)` of the second pass; both
components are comparable, so it never raises. -/
def pyGT2 (x c : ℚ × Nat) : Except Unit Bool :=
  if x.1 = c.1 then
    if x.2 = c.2 then .ok false else .ok (decide (c.2 < x.2))
  else .ok (decide (c.1 < x.1))

/-- Python's `max` reduction: keep the current maximum, replace it when
the next element compares strictly greater. -/
def pyMaxFold (cmp : α → α → Except Unit Bool) : α → List α → Except Unit α
  | cur, [] => .ok cur
  | cur, x :: xs =>
    match cmp x cur with
    | .error e => .error e
    | .ok true => pyMaxFold cmp x xs
    | .ok false => pyMaxFold cmp cur xs

/-- Python `max` over an iterable (raises on an empty one). -/
def pyMax (cmp : α → α → Except Unit Bool) : List α → Except Unit α
  | [] => .error ()
  | x :: xs => pyMaxFold cmp x xs

/-- First-pass scoring of `Menu._get_item`:
`(similarity(label.lower(), name.lower()), (label, target))`. -/
def scoreItems (items : List (String × Option NodeRef)) (name : String) :
    List (ℚ × String × Option NodeRef) :=
  items.map fun x => (similarity (strLower x.1) (strLower name), x)

/-- Second-pass scoring of `Menu._get_item`:
`(similarity(str(i), name), i)` for `i` enumerating from 1. -/
def scoreIdx (items : List (String × Option NodeRef)) (name : String) :
    List (ℚ × Nat) :=
  (List.range items.length).map fun j => (similarity (Nat.repr (j + 1)) name, j + 1)

/-- Result of `Menu._get_item`: a target (`none` being the terminal
sentinel), `KeyError` (not found), or an uncaught runtime error
(`TypeError` from comparing targets, or indexing failure). -/
inductive ResolveRes where
  | found (t : Option NodeRef)
  | notFound
  | crash
deriving DecidableEq

/-- `Menu._get_item`: label pass, then 1-based-index pass, each accepted
when the maximal ratio is `≥ 0.5`; otherwise `KeyError`. -/
def get_item (items : List (String × Option NodeRef)) (name : String) : ResolveRes :=
  match pyMax pyGT3 (scoreItems items name) with
  | .error _ => .crash
  | .ok best =>
    if (1 : ℚ) / 2 ≤ best.1 then .found best.2.2
    else
      match pyMax pyGT2 (scoreIdx items name) with
      | .error _ => .crash
      | .ok b2 =>
        if (1 : ℚ) / 2 ≤ b2.1 then
          match items.get? (b2.2 - 1) with
          | some e => .found e.2
          | none => .crash
        else .notFound

/-- The lexicographic key Python's tuple comparison effectively orders
first-pass entries by (when no `TypeError` intervenes): the ratio, then
the label's character list. -/
def key1 (x : ℚ × String × Option NodeRef) : ℚ ×ₗ List Char :=
  toLex (x.1, x.2.1.data)

/-- The lexicographic key ordering second-pass entries: the ratio, then
the 1-based index. -/
def key2 (x : ℚ × Nat) : ℚ ×ₗ Nat :=
  toLex (x.1, x.2)

/-! ## Spec-side resolver descriptions -/

/-- Maximum of a list, `none` on the empty list (spec-side helper). -/
def listMax [LinearOrder κ] : List κ → Option κ
  | [] => none
  | x :: xs => some (xs.foldl (fun c y => max c y) x)

/-- Spec-side resolver, following the amended specification words:
score every option's case-folded label against the case-folded input;
if the maximal score is `≥ 0.5` return the target of the maximal-score
option with the lexicographically greatest label; otherwise score the
1-based decimal index strings against the raw input and, if the maximal
score is `≥ 0.5`, return the target at the greatest maximal-score
index; otherwise signal not-found (`none`). -/
def resolveSpec (items : List (String × Option NodeRef)) (name : String) :
    Option (Option NodeRef) :=
  match listMax ((scoreItems items name).map (·.1)) with
  | none => none
  | some ms =>
    if (1 : ℚ) / 2 ≤ ms then
      let cands := (scoreItems items name).filter fun x => decide (x.1 = ms)
      match listMax (cands.map fun x => x.2.1.data) with
      | none => none
      | some ml => (cands.find? fun x => decide (x.2.1.data = ml)).map (·.2.2)
    else
      match listMax ((scoreIdx items name).map (·.1)) with
      | none => none
      | some ms2 =>
        if (1 : ℚ) / 2 ≤ ms2 then
          let cands2 := (scoreIdx items name).filter fun x => decide (x.1 = ms2)
          match listMax (cands2.map (·.2)) with
          | none => none
          | some mi => (items.get? (mi - 1)).map (·.2)
        else none

/-- Modelled from the claim's words (claim-side resolver): identical
two-pass structure, but with ties broken by **first occurrence in
iteration order** (the fold keeps the first maximal-score element). -/
def resolveClaimed (items : List (String × Option NodeRef)) (name : String) :
    Option (Option NodeRef) :=
  match scoreItems items name with
  | [] => none
  | s :: ss =>
    let best := ss.foldl (fun c x => if c.1 < x.1 then x else c) s
    if (1 : ℚ) / 2 ≤ best.1 then some best.2.2
    else
      match scoreIdx items name with
      | [] => none
      | s2 :: ss2 =>
        let b2 := ss2.foldl (fun c x => if c.1 < x.1 then x else c) s2
        if (1 : ℚ) / 2 ≤ b2.1 then (items.get? (b2.2 - 1)).map (·.2) else none

/-! ## Menus, actions, and the traversal engine -/

/-- The `ask`/`tell` capability pair, embedded as a stream of pending
replies (`none` = end of input) plus a log of displayed lines.  Each
`ask` displays its prompt and consumes one reply (an exhausted stream
also yields `none`). -/
structure World where
  inputs : List (Option String)
  log : List String
deriving DecidableEq

/-- A callback after normalization, as the engine sees it: it may read
and transform the state and interact through the capabilities. -/
abbrev Cb (σ : Type) := σ → World → σ × World

/-- The fields of a `Menu` node (entries, weak parent back-reference,
exit flags, optional attached callback). -/
structure MenuData (σ : Type) where
  items : List (String × Option NodeRef)
  parent : Option Nat
  include_exit : Bool
  include_exit_on_submenus : Bool
  callback : Option (Cb σ)

/-- The fields of an `Action` node. -/
structure ActionData (σ : Type) where
  parent : Nat
  callback : Option (Cb σ)

/-- Label of the synthesized return entry. -/
def retLabel : String := "Return to previous menu"

/-- Label of the synthesized exit entry. -/
def exitLabel : String := "Exit"

/-- `Menu._items_list`: the effective option list — authored entries,
then `("Return to previous menu", parent)` when a parent exists, then
`("Exit", None)` when there is no parent or the include-exit flag is
set. -/
def items_list (m : MenuData σ) : List (String × Option NodeRef) :=
  let items := m.items
  let items :=
    match m.parent with
    | some p => items ++ [(retLabel, some (NodeRef.menu p))]
    | none => items
  if m.parent = none ∨ m.include_exit = true then items ++ [(exitLabel, none)]
  else items

/-- The numbered menu text produced by `Menu._menu`, prefixed by the
fixed prompt line as in `Menu.next`. -/
def menuQuestion (items : List (String × Option NodeRef)) : String :=
  "Please select an option:\n" ++
    String.intercalate "\n" (items.enum.map fun p => Nat.repr (p.1 + 1) ++ ". " ++ p.2.1)

/-- The error line substituted for the prompt after a failed selection. -/
def invalidPrompt : String := "Invalid option, please try again."

/-- The optional menu callback invocation at the top of `Menu.next`. -/
def menuCbStep (m : MenuData σ) (s : σ) (w : World) : σ × World :=
  match m.callback with
  | some cb => cb s w
  | none => (s, w)

/-- The `while True` input loop of `Menu.next`: ask with the current
prompt; on `None` return the terminal sentinel; on a reply resolve it,
returning the target on success and retrying with the error prompt on
`KeyError`; an uncaught resolver error propagates. -/
def menuLoop (items : List (String × Option NodeRef)) (s : σ) :
    String → List (Option String) → List String →
    Except Unit (Option NodeRef × σ × World)
  | q, [], log => .ok (none, s, ⟨[], log ++ [q]⟩)
  | q, none :: rest, log => .ok (none, s, ⟨rest, log ++ [q]⟩)
  | q, some a :: rest, log =>
    match get_item items a with
    | .found t => .ok (t, s, ⟨rest, log ++ [q]⟩)
    | .notFound => menuLoop items s invalidPrompt rest (log ++ [q])
    | .crash => .error ()

/-- `Menu.next`: run the optional callback, then the prompt loop. -/
def menuNext (m : MenuData σ) (s : σ) (w : World) :
    Except Unit (Option NodeRef × σ × World) :=
  menuLoop (items_list m) (menuCbStep m s w).1 (menuQuestion (items_list m))
    (menuCbStep m s w).2.inputs (menuCbStep m s w).2.log

/-- The optional action callback invocation in `Action.next`. -/
def actionCbStep (a : ActionData σ) (s : σ) (w : World) : σ × World :=
  match a.callback with
  | some cb => cb s w
  | none => (s, w)

/-- `Action.next`: run the optional callback, return the parent menu and
the updated state.  No prompting, no redirection. -/
def actionNext (a : ActionData σ) (s : σ) (w : World) :
    Option NodeRef × σ × World :=
  (some (NodeRef.menu a.parent), actionCbStep a s w)

/-- The node arena: all menus and actions of one tree. -/
structure Arena (σ : Type) where
  menus : List (MenuData σ)
  actions : List (ActionData σ)

/-- Dispatch `next` on the current node. -/
def nodeNext (A : Arena σ) : NodeRef → σ → World → Except Unit (Option NodeRef × σ × World)
  | .menu i, s, w =>
    match A.menus.get? i with
    | some m => menuNext m s w
    | none => .error ()
  | .action i, s, w =>
    match A.actions.get? i with
    | some a => .ok (actionNext a s w)
    | none => .error ()

/-- Outcome of a bounded run of `Menu.communicate`'s loop. -/
inductive RunRes (σ : Type) where
  | done (s : σ) (w : World)
  | outOfFuel
  | crashed

/-- `Menu.communicate`: `while current is not None: current, state =
current.next(...)`, step-indexed by fuel. -/
def runSteps (A : Arena σ) : Nat → Option NodeRef → σ → World → RunRes σ
  | _, none, s, w => .done s w
  | 0, some _, _, _ => .outOfFuel
  | n + 1, some r, s, w =>
    match nodeNext A r s w with
    | .error _ => .crashed
    | .ok (nxt, s', w') => runSteps A n nxt s' w'

/-! ## Callback normalization (`normalize_callback`) -/

/-- A Python callable as the normalizer sees it: its declared parameter
names, in declaration order, and an opaque body mapping the bound
argument environment to an optional result (`none` = the call raised). -/
structure PyCallback (V R : Type) where
  params : List String
  body : List (String × V) → Option R

/-- Look a name up in a bound environment. -/
def envGet (n : String) : List (String × V) → Option V
  | [] => none
  | (m, v) :: rest => if m = n then some v else envGet n rest

/-- Bind keyword arguments: each keyword must name a not-yet-bound
parameter, and afterwards every parameter must be bound (else
`TypeError`). -/
def bindKw (bound : List (String × V)) (rest : List String) :
    List (String × V) → Option (List (String × V))
  | [] => if rest.isEmpty then some bound else none
  | (n, v) :: ks =>
    if n ∈ rest then bindKw (bound ++ [(n, v)]) (rest.erase n) ks else none

/-- Python call binding: positional arguments bind leading parameters in
order, keyword arguments bind the remaining ones by name. -/
def bindArgs (params : List String) (pos : List V) (kw : List (String × V)) :
    Option (List (String × V)) :=
  if params.length < pos.length then none
  else bindKw (params.zip pos) (params.drop pos.length) kw

/-- Invoke a callable with positional and keyword arguments; `none` when
binding fails (`TypeError`) or the body itself fails. -/
def invoke (cb : PyCallback V R) (pos : List V) (kw : List (String × V)) : Option R :=
  match bindArgs cb.params pos kw with
  | some env => cb.body env
  | none => none

/-- `lambda state, ask, tell: callback(state, ask=ask)`. -/
def wrapStateAsk (cb : PyCallback V R) : PyCallback V R where
  params := ["state", "ask", "tell"]
  body := fun env =>
    match envGet "state" env, envGet "ask" env with
    | some s, some a => invoke cb [s] [("ask", a)]
    | _, _ => none

/-- `lambda state, ask, tell: callback(state, tell=tell)`. -/
def wrapStateTell (cb : PyCallback V R) : PyCallback V R where
  params := ["state", "ask", "tell"]
  body := fun env =>
    match envGet "state" env, envGet "tell" env with
    | some s, some t => invoke cb [s] [("tell", t)]
    | _, _ => none

/-- `lambda state, ask, tell: callback(ask=ask, tell=tell)`. -/
def wrapAskTell (cb : PyCallback V R) : PyCallback V R where
  params := ["state", "ask", "tell"]
  body := fun env =>
    match envGet "ask" env, envGet "tell" env with
    | some a, some t => invoke cb [] [("ask", a), ("tell", t)]
    | _, _ => none

/-- `lambda state, ask, tell: callback(ask=ask)`. -/
def wrapAsk (cb : PyCallback V R) : PyCallback V R where
  params := ["state", "ask", "tell"]
  body := fun env =>
    match envGet "ask" env with
    | some a => invoke cb [] [("ask", a)]
    | none => none

/-- `lambda state, ask, tell: callback(tell=tell)`. -/
def wrapTell (cb : PyCallback V R) : PyCallback V R where
  params := ["state", "ask", "tell"]
  body := fun env =>
    match envGet "tell" env with
    | some t => invoke cb [] [("tell", t)]
    | none => none

/-- `lambda state, ask, tell: callback(state)`. -/
def wrapState (cb : PyCallback V R) : PyCallback V R where
  params := ["state", "ask", "tell"]
  body := fun env =>
    match envGet "state" env with
    | some s => invoke cb [s] []
    | none => none

/-- `lambda state, ask, tell: callback()`. -/
def wrapNone (cb : PyCallback V R) : PyCallback V R where
  params := ["state", "ask", "tell"]
  body := fun _ => invoke cb [] []

/-- `normalize_callback`: dispatch on the declared arity and the
presence of the names `ask`/`tell`; `ValueError` (`.error`) otherwise. -/
def normalizeCb (cb : PyCallback V R) : Except Unit (PyCallback V R) :=
  if cb.params.length = 3 then .ok cb
  else if cb.params.length = 2 then
    if "ask" ∈ cb.params ∧ "tell" ∉ cb.params then .ok (wrapStateAsk cb)
    else if "ask" ∉ cb.params ∧ "tell" ∈ cb.params then .ok (wrapStateTell cb)
    else if "ask" ∈ cb.params ∧ "tell" ∈ cb.params then .ok (wrapAskTell cb)
    else .error ()
  else if cb.params.length = 1 then
    if "ask" ∈ cb.params then .ok (wrapAsk cb)
    else if "tell" ∈ cb.params then .ok (wrapTell cb)
    else .ok (wrapState cb)
  else if cb.params.length = 0 then .ok (wrapNone cb)
  else .error ()

/-! ## The builder phase (`menu()`, `Menu.menu`, `Menu.action`) -/

/-- One builder operation. -/
inductive BuildOp (σ : Type) where
  | addMenu (p : Nat) (name : String) (ie ies : Option Bool)
  | addAction (p : Nat) (name : String)
  | setMenuCb (i : Nat) (cb : Option (Cb σ))
  | setActionCb (i : Nat) (cb : Option (Cb σ))

/-- Apply one builder operation.  `Menu.menu` creates a child menu whose
parent is the receiver and whose exit flags default to the receiver's
`include_exit_on_submenus`, and appends the entry; `Menu.action` creates
a child action likewise; callback assignment replaces the stored
callback.  (An operation addressed at a nonexistent node is a no-op;
in Python it cannot be expressed at all.) -/
def applyOp (A : Arena σ) : BuildOp σ → Arena σ
  | .addMenu p nm ie ies =>
    match A.menus.get? p with
    | none => A
    | some pm =>
      let cid := A.menus.length
      let child : MenuData σ :=
        { items := []
          parent := some p
          include_exit := ie.getD pm.include_exit_on_submenus
          include_exit_on_submenus := ies.getD pm.include_exit_on_submenus
          callback := none }
      { A with menus :=
          (A.menus.set p { pm with items := pm.items ++ [(nm, some (NodeRef.menu cid))] })
            ++ [child] }
  | .addAction p nm =>
    match A.menus.get? p with
    | none => A
    | some pm =>
      let aid := A.actions.length
      { menus := A.menus.set p { pm with items := pm.items ++ [(nm, some (NodeRef.action aid))] }
        actions := A.actions ++ [⟨p, none⟩] }
  | .setMenuCb i cb =>
    match A.menus.get? i with
    | none => A
    | some m => { A with menus := A.menus.set i { m with callback := cb } }
  | .setActionCb i cb =>
    match A.actions.get? i with
    | none => A
    | some a => { A with actions := A.actions.set i { a with callback := cb } }

/-- Apply a sequence of builder operations. -/
def applyOps (A : Arena σ) (ops : List (BuildOp σ)) : Arena σ :=
  ops.foldl applyOp A

/-- The arena produced by `menu()`: a single root menu with default
flags and no parent. -/
def initArena (σ : Type) : Arena σ :=
  { menus := [{ items := []
                parent := none
                include_exit := false
                include_exit_on_submenus := false
                callback := none }]
    actions := [] }

/-! ## Concrete fixtures used to exercise the theorems -/

/-- A root menu with two identically labelled submenu entries. -/
def menuDupLabels : MenuData Nat :=
  ⟨[("aa", some (NodeRef.menu 1)), ("aa", some (NodeRef.menu 2))], none, false, false, none⟩

/-- A root menu with one action entry. -/
def menuAlpha : MenuData Nat :=
  ⟨[("alpha", some (NodeRef.action 0))], none, false, false, none⟩

/-- A submenu of the root with the include-exit flag unset. -/
def menuChild : MenuData Nat :=
  ⟨[("x", some (NodeRef.action 0))], some 0, false, false, none⟩

/-! ## Properties of the similarity scorer -/

theorem lcs_nil_left (b : List Char) : lcs [] b = 0 := by
  cases b <;> simp [lcs]

theorem lcs_nil_right (a : List Char) : lcs a [] = 0 := by
  cases a <;> simp [lcs]

theorem lcs_self (a : List Char) : lcs a a = a.length := by
  induction a with
  | nil => simp [lcs]
  | cons x xs ih => simp [lcs, ih]

theorem lcs_comm_aux : ∀ (n : Nat) (a b : List Char),
    a.length + b.length ≤ n → lcs a b = lcs b a := by
  intro n
  induction n with
  | zero =>
    intro a b h
    match a, b with
    | [], [] => rfl
    | [], _ :: _ => simp at h
    | _ :: _, _ => simp at h
  | succ n ih =>
    intro a b h
    match a, b with
    | [], b => rw [lcs_nil_left, lcs_nil_right]
    | a :: as, [] => rw [lcs_nil_left, lcs_nil_right]
    | x :: xs, y :: ys =>
      simp only [List.length_cons] at h
      by_cases hxy : x = y
      · subst hxy
        simp only [lcs, if_pos rfl]
        rw [ih xs ys (by omega)]
        simp
      · have hyx : ¬ y = x := fun hh => hxy hh.symm
        simp only [lcs, if_neg hxy, if_neg hyx]
        rw [ih (x :: xs) ys (by simp; omega), ih xs (y :: ys) (by simp; omega)]
        simp [Nat.max_comm]

theorem lcs_comm (a b : List Char) : lcs a b = lcs b a :=
  lcs_comm_aux (a.length + b.length) a b le_rfl

theorem indelDist_le (a b : List Char) : indelDist a b ≤ a.length + b.length :=
  Nat.sub_le _ _

theorem indelDist_self (a : List Char) : indelDist a a = 0 := by
  simp [indelDist, lcs_self]; omega

theorem indelDist_comm (a b : List Char) : indelDist a b = indelDist b a := by
  simp [indelDist, lcs_comm a b, Nat.add_comm a.length b.length]

theorem similarity_nonneg (a b : String) : 0 ≤ similarity a b := by
  unfold similarity
  by_cases h : a.data.length + b.data.length = 0
  · rw [if_pos h]; norm_num
  · rw [if_neg h]
    have ht : (0 : ℚ) < ((a.data.length + b.data.length : Nat) : ℚ) := by
      exact_mod_cast Nat.pos_of_ne_zero h
    have hd : (indelDist a.data b.data : ℚ) ≤ ((a.data.length + b.data.length : Nat) : ℚ) := by
      exact_mod_cast indelDist_le a.data b.data
    rw [sub_nonneg, div_le_one ht]
    exact hd

theorem similarity_le_one (a b : String) : similarity a b ≤ 1 := by
  unfold similarity
  by_cases h : a.data.length + b.data.length = 0
  · rw [if_pos h]
  · rw [if_neg h]
    have ht : (0 : ℚ) < ((a.data.length + b.data.length : Nat) : ℚ) := by
      exact_mod_cast Nat.pos_of_ne_zero h
    exact sub_le_self 1 (div_nonneg (by positivity) ht.le)

theorem similarity_self (x : String) : similarity x x = 1 := by
  unfold similarity
  by_cases h : x.data.length + x.data.length = 0
  · rw [if_pos h]
  · rw [if_neg h, indelDist_self]
    norm_num

theorem similarity_comm (a b : String) : similarity a b = similarity b a := by
  unfold similarity
  rw [indelDist_comm b.data a.data, Nat.add_comm b.data.length a.data.length]

/-- Evaluation helper for `similarity` at concrete strings. -/
theorem similarity_eval (s1 s2 : String) {d t : Nat}
    (hd : indelDist s1.data s2.data = d)
    (ht : s1.data.length + s2.data.length = t) (htn : t ≠ 0) :
    similarity s1 s2 = 1 - (d : ℚ) / (t : ℚ) := by
  unfold similarity
  rw [hd, ht, if_neg htn]

/-- C8: for all strings `a`, `b`, `x`, `similarity a b` lies in
`[0, 1]`, `similarity x x = 1`, and `similarity a b = similarity b a`,
where `similarity` is the normalized Indel (insert/delete) similarity,
the edit distance being normalized by the combined length of the two
strings. -/
theorem c8_similarity_bounds_refl_symm (a b x : String) :
    0 ≤ similarity a b ∧ similarity a b ≤ 1 ∧
    similarity x x = 1 ∧ similarity a b = similarity b a :=
  ⟨similarity_nonneg a b, similarity_le_one a b, similarity_self x, similarity_comm a b⟩

/-! ## The Python `max` reduction -/

theorem charsLtB_iff : ∀ (a b : List Char), charsLtB a b = true ↔ List.Lex (· < ·) a b := by
  intro a
  induction a with
  | nil =>
    intro b
    cases b with
    | nil =>
      simp only [charsLtB, Bool.false_eq_true, false_iff]
      exact List.Lex.not_nil_right _ _
    | cons y ys =>
      simp only [charsLtB, true_iff]
      exact List.Lex.nil
  | cons x xs ih =>
    intro b
    cases b with
    | nil =>
      simp only [charsLtB, Bool.false_eq_true, false_iff]
      exact List.Lex.not_nil_right _ _
    | cons y ys =>
      rcases lt_trichotomy x y with h | h | h
      · simp only [charsLtB, if_pos h, true_iff]
        exact List.Lex.rel h
      · subst h
        simp only [charsLtB, lt_irrefl, if_neg (lt_irrefl x), if_false]
        rw [List.Lex.cons_iff]
        exact ih ys
      · simp only [charsLtB, if_neg (asymm h), if_pos h, Bool.false_eq_true, false_iff]
        intro hl
        cases hl with
        | cons h2 => exact absurd h (lt_irrefl x)
        | rel hr => exact absurd hr (asymm h)

theorem list_char_lt_iff_lex (a b : List Char) :
    a < b ↔ List.Lex (· < ·) a b :=
  Iff.rfl

theorem pyGT3_eval (x c : ℚ × String × Option NodeRef) (h : x.2.1 ≠ c.2.1 ∨ x = c) :
    pyGT3 x c = .ok (decide (key1 c < key1 x)) := by
  rcases h with h | rfl
  · unfold pyGT3
    by_cases h1 : x.1 = c.1
    · rw [if_pos h1, if_neg h]
      congr 1
      have hlt : (key1 c < key1 x) ↔ List.Lex (· < ·) c.2.1.data x.2.1.data := by
        simp only [key1]
        rw [Prod.Lex.lt_iff]
        constructor
        · rintro (hq | ⟨-, hl⟩)
          · rw [h1] at hq; exact absurd hq (lt_irrefl _)
          · exact (list_char_lt_iff_lex _ _).mp hl
        · intro hl
          exact Or.inr ⟨h1.symm, (list_char_lt_iff_lex _ _).mpr hl⟩
      cases hcb : charsLtB c.2.1.data x.2.1.data with
      | true =>
        exact (decide_eq_true (hlt.mpr ((charsLtB_iff _ _).mp hcb))).symm
      | false =>
        refine (decide_eq_false ?_).symm
        intro hk
        have : charsLtB c.2.1.data x.2.1.data = true :=
          (charsLtB_iff _ _).mpr (hlt.mp hk)
        simp [this] at hcb
    · rw [if_neg h1]
      congr 1
      refine (decide_eq_decide.mpr ?_).symm
      simp only [key1]
      rw [Prod.Lex.lt_iff]
      constructor
      · rintro (hq | ⟨he, -⟩)
        · exact hq
        · exact absurd he.symm h1
      · exact Or.inl
  · unfold pyGT3
    rw [if_pos rfl, if_pos rfl, if_pos rfl]
    congr 1
    exact (decide_eq_false (lt_irrefl _)).symm

theorem pyGT2_eval (x c : ℚ × Nat) :
    pyGT2 x c = .ok (decide (key2 c < key2 x)) := by
  unfold pyGT2
  by_cases h1 : x.1 = c.1
  · by_cases h2 : x.2 = c.2
    · rw [if_pos h1, if_pos h2]
      congr 1
      refine (decide_eq_false ?_).symm
      simp only [key2]
      rw [Prod.Lex.lt_iff]
      rintro (hq | ⟨-, hl⟩)
      · rw [h1] at hq; exact absurd hq (lt_irrefl _)
      · rw [h2] at hl; exact absurd hl (lt_irrefl _)
    · rw [if_pos h1, if_neg h2]
      congr 1
      refine (decide_eq_decide.mpr ?_).symm
      simp only [key2]
      rw [Prod.Lex.lt_iff]
      constructor
      · rintro (hq | ⟨-, hl⟩)
        · rw [h1] at hq; exact absurd hq (lt_irrefl _)
        · exact hl
      · intro hl
        exact Or.inr ⟨h1.symm, hl⟩
  · rw [if_neg h1]
    congr 1
    refine (decide_eq_decide.mpr ?_).symm
    simp only [key2]
    rw [Prod.Lex.lt_iff]
    constructor
    · rintro (hq | ⟨he, -⟩)
      · exact hq
      · exact absurd he.symm h1
    · exact Or.inl

theorem pyMaxFold_spec [LinearOrder κ] (key : α → κ) (cmp : α → α → Except Unit Bool) :
    ∀ (l : List α) (cur : α),
      (∀ x ∈ l, ∀ c, (c = cur ∨ c ∈ l) → cmp x c = .ok (decide (key c < key x))) →
      ∃ r, pyMaxFold cmp cur l = .ok r ∧ (r = cur ∨ r ∈ l) ∧
        key cur ≤ key r ∧ ∀ y ∈ l, key y ≤ key r := by
  intro l
  induction l with
  | nil =>
    intro cur _
    exact ⟨cur, rfl, Or.inl rfl, le_rfl, by simp⟩
  | cons x xs ih =>
    intro cur H
    have hx : cmp x cur = .ok (decide (key cur < key x)) :=
      H x (by simp) cur (Or.inl rfl)
    by_cases hlt : key cur < key x
    · obtain ⟨r, hr, hmem, hle, hub⟩ := ih x (fun y hy c hc => by
        refine H y (by simp [hy]) c ?_
        rcases hc with hc | hc
        · exact Or.inr (by simp [hc])
        · exact Or.inr (by simp [hc]))
      refine ⟨r, ?_, ?_, ?_, ?_⟩
      · rw [pyMaxFold, hx, decide_eq_true hlt]
        exact hr
      · rcases hmem with hm | hm
        · exact Or.inr (by simp [hm])
        · exact Or.inr (by simp [hm])
      · exact le_of_lt (lt_of_lt_of_le hlt hle)
      · intro y hy
        rcases List.mem_cons.mp hy with hy | hy
        · subst hy; exact hle
        · exact hub y hy
    · obtain ⟨r, hr, hmem, hle, hub⟩ := ih cur (fun y hy c hc => by
        refine H y (by simp [hy]) c ?_
        rcases hc with hc | hc
        · exact Or.inl hc
        · exact Or.inr (by simp [hc]))
      refine ⟨r, ?_, ?_, ?_, ?_⟩
      · rw [pyMaxFold, hx, decide_eq_false hlt]
        exact hr
      · rcases hmem with hm | hm
        · exact Or.inl hm
        · exact Or.inr (by simp [hm])
      · exact hle
      · intro y hy
        rcases List.mem_cons.mp hy with hy | hy
        · subst hy; exact le_trans (le_of_not_lt hlt) hle
        · exact hub y hy

theorem pyMax_spec [LinearOrder κ] (key : α → κ) (cmp : α → α → Except Unit Bool)
    (l : List α) (hne : l ≠ [])
    (H : ∀ x ∈ l, ∀ c ∈ l, cmp x c = .ok (decide (key c < key x))) :
    ∃ r, pyMax cmp l = .ok r ∧ r ∈ l ∧ ∀ y ∈ l, key y ≤ key r := by
  match l with
  | [] => exact absurd rfl hne
  | x :: xs =>
    obtain ⟨r, hr, hmem, hle, hub⟩ := pyMaxFold_spec key cmp xs x (fun y hy c hc => by
      refine H y (by simp [hy]) c ?_
      rcases hc with hc | hc
      · simp [hc]
      · simp [hc])
    refine ⟨r, hr, ?_, ?_⟩
    · rcases hmem with hm | hm
      · simp [hm]
      · simp [hm]
    · intro y hy
      rcases List.mem_cons.mp hy with hy | hy
      · subst hy
        exact hle
      · exact hub y hy

/-! ## `listMax` and `find?` helpers -/

theorem foldl_max_mem [LinearOrder κ] : ∀ (xs : List κ) (x : κ),
    xs.foldl (fun c y => max c y) x ∈ x :: xs := by
  intro xs
  induction xs with
  | nil => intro x; simp [List.foldl]
  | cons y ys ih =>
    intro x
    rw [List.foldl_cons]
    have h := ih (max x y)
    rcases List.mem_cons.mp h with h | h
    · rw [h]
      rcases max_choice x y with hm | hm <;> rw [hm] <;> simp
    · simp [h]

theorem foldl_max_ub [LinearOrder κ] : ∀ (xs : List κ) (x : κ) (y : κ),
    y ∈ x :: xs → y ≤ xs.foldl (fun c y => max c y) x := by
  intro xs
  induction xs with
  | nil =>
    intro x y hy
    rcases List.mem_cons.mp hy with h | h
    · subst h; simp [List.foldl]
    · simp at h
  | cons z zs ih =>
    intro x y hy
    rw [List.foldl_cons]
    have hstep : max x z ≤ zs.foldl (fun c y => max c y) (max x z) :=
      ih (max x z) (max x z) (by simp)
    rcases List.mem_cons.mp hy with h | h
    · rw [h]
      exact le_trans (le_max_left x z) hstep
    · rcases List.mem_cons.mp h with h | h
      · rw [h]
        exact le_trans (le_max_right x z) hstep
      · exact ih (max x z) y (by simp [h])

theorem listMax_mem [LinearOrder κ] {l : List κ} {mx : κ} (h : listMax l = some mx) :
    mx ∈ l := by
  match l with
  | [] => simp [listMax] at h
  | x :: xs =>
    simp only [listMax, Option.some.injEq] at h
    subst h
    exact foldl_max_mem xs x

theorem listMax_ub [LinearOrder κ] {l : List κ} {mx : κ} (h : listMax l = some mx) :
    ∀ y ∈ l, y ≤ mx := by
  match l with
  | [] => simp [listMax] at h
  | x :: xs =>
    simp only [listMax, Option.some.injEq] at h
    subst h
    exact fun y hy => foldl_max_ub xs x y hy

theorem listMax_isSome [LinearOrder κ] (l : List κ) (h : l ≠ []) :
    ∃ mx, listMax l = some mx := by
  match l with
  | [] => exact absurd rfl h
  | x :: xs => exact ⟨_, rfl⟩

theorem find?_exists {p : α → Bool} : ∀ {l : List α} {a : α},
    a ∈ l → p a = true → ∃ b, l.find? p = some b := by
  intro l
  induction l with
  | nil => intro a h; simp at h
  | cons x xs ih =>
    intro a ha hp
    by_cases hx : p x = true
    · exact ⟨x, List.find?_cons_of_pos _ hx⟩
    · rcases List.mem_cons.mp ha with h | h
      · subst h; exact absurd hp hx
      · obtain ⟨b, hb⟩ := ih h hp
        refine ⟨b, ?_⟩
        rw [List.find?_cons_of_neg _ hx, hb]

theorem lex_snd_le {A B : Type} [LinearOrder A] [LinearOrder B] {a b : A × B}
    (h : toLex a ≤ toLex b) (he : a.1 = b.1) : a.2 ≤ b.2 := by
  rcases (Prod.Lex.le_iff a b).mp h with hq | ⟨-, hl⟩
  · rw [he] at hq; exact absurd hq (lt_irrefl _)
  · exact hl

/-! ## `Menu._get_item` agrees with the spec-side resolver -/

theorem scoreItems_labels_distinct {items : List (String × Option NodeRef)} {name : String}
    (hd : items.Pairwise (fun a b => a.1 ≠ b.1)) :
    ∀ a ∈ scoreItems items name, ∀ b ∈ scoreItems items name, a ≠ b → a.2.1 ≠ b.2.1 := by
  intro a ha b hb hab
  obtain ⟨xa, hxa, rfl⟩ := List.mem_map.mp ha
  obtain ⟨xb, hxb, rfl⟩ := List.mem_map.mp hb
  intro hlab
  simp only at hlab
  by_cases hx : xa = xb
  · subst hx; exact hab rfl
  · have hforall := List.Pairwise.forall
      (R := fun (a b : String × Option NodeRef) => a.1 ≠ b.1)
      (by intro u v h; exact Ne.symm h) hd
    exact hforall hxa hxb hx hlab

theorem scoreItems_cmp {items : List (String × Option NodeRef)} {name : String}
    (hd : items.Pairwise (fun a b => a.1 ≠ b.1)) :
    ∀ x ∈ scoreItems items name, ∀ c ∈ scoreItems items name,
      pyGT3 x c = .ok (decide (key1 c < key1 x)) := by
  intro x hx c hc
  by_cases hxc : x = c
  · exact pyGT3_eval x c (Or.inr hxc)
  · exact pyGT3_eval x c (Or.inl (scoreItems_labels_distinct hd x hx c hc hxc))

theorem get_item_eq_resolveSpec (items : List (String × Option NodeRef)) (name : String)
    (hne : items ≠ []) (hd : items.Pairwise (fun a b => a.1 ≠ b.1)) :
    get_item items name =
      (match resolveSpec items name with
       | some t => ResolveRes.found t
       | none => ResolveRes.notFound) := by
  have hSne : scoreItems items name ≠ [] := by
    simp [scoreItems, hne]
  obtain ⟨r, hr, hrm, hub⟩ :=
    pyMax_spec key1 pyGT3 (scoreItems items name) hSne (scoreItems_cmp hd)
  obtain ⟨ms, hms⟩ := listMax_isSome ((scoreItems items name).map (·.1)) (by simp [hSne])
  have hr1 : r.1 = ms := by
    refine le_antisymm ?_ ?_
    · exact listMax_ub hms r.1 (List.mem_map.mpr ⟨r, hrm, rfl⟩)
    · obtain ⟨x, hxm, hx1⟩ := List.mem_map.mp (listMax_mem hms)
      rw [← hx1]
      exact Prod.Lex.monotone_fst (key1 x) (key1 r) (hub x hxm)
  by_cases hth : (1 : ℚ) / 2 ≤ ms
  · -- first pass succeeds
    have hget : get_item items name = .found r.2.2 := by
      unfold get_item
      rw [hr]
      simp only []
      rw [if_pos (hr1 ▸ hth)]
    have hrc : r ∈ (scoreItems items name).filter fun x => decide (x.1 = ms) := by
      rw [List.mem_filter]
      exact ⟨hrm, by simp [hr1]⟩
    obtain ⟨ml, hml⟩ :=
      listMax_isSome (((scoreItems items name).filter fun x => decide (x.1 = ms)).map
        fun x => x.2.1.data) (by
          intro hemp
          rw [List.map_eq_nil_iff] at hemp
          rw [hemp] at hrc
          simp at hrc)
    have hmlr : ml = r.2.1.data := by
      refine le_antisymm ?_ ?_
      · obtain ⟨x, hxm, hx1⟩ := List.mem_map.mp (listMax_mem hml)
        rw [← hx1]
        have hxS := (List.mem_filter.mp hxm).1
        have hx1eq : x.1 = ms := by
          have := (List.mem_filter.mp hxm).2
          simpa using this
        exact lex_snd_le (hub x hxS) (by rw [hx1eq, hr1])
      · exact listMax_ub hml r.2.1.data (List.mem_map.mpr ⟨r, hrc, rfl⟩)
    have hfind : (((scoreItems items name).filter fun x => decide (x.1 = ms)).find?
        fun x => decide (x.2.1.data = ml)) = some r := by
      obtain ⟨b, hb⟩ :=
        find?_exists (p := fun x => decide (x.2.1.data = ml)) hrc (by simp [hmlr])
      have hbm := List.mem_of_find?_eq_some hb
      have hbp : b.2.1.data = ml := by
        have := List.find?_some hb
        simpa using this
      have hbS := (List.mem_filter.mp hbm).1
      have hbr : b = r := by
        by_cases hbr : b = r
        · exact hbr
        · exfalso
          refine scoreItems_labels_distinct hd b hbS r hrm hbr ?_
          have : b.2.1.data = r.2.1.data := by rw [hbp, hmlr]
          exact String.toList_inj.mp this
      rw [← hbr]
      exact hb
    rw [hget]
    unfold resolveSpec
    rw [hms]
    simp only []
    rw [if_pos hth, hml]
    simp only []
    rw [hfind]
    simp
  · -- first pass fails; second (index) pass
    have hlen : items.length ≠ 0 := by
      simpa using fun h => hne (List.length_eq_zero.mp h)
    have hS2ne : scoreIdx items name ≠ [] := by
      simp [scoreIdx, List.range_eq_nil, hlen]
    obtain ⟨r2, hr2, hr2m, hub2⟩ :=
      pyMax_spec key2 pyGT2 (scoreIdx items name) hS2ne
        (fun x _ c _ => pyGT2_eval x c)
    obtain ⟨ms2, hms2⟩ := listMax_isSome ((scoreIdx items name).map (·.1)) (by simp [hS2ne])
    have hr21 : r2.1 = ms2 := by
      refine le_antisymm ?_ ?_
      · exact listMax_ub hms2 r2.1 (List.mem_map.mpr ⟨r2, hr2m, rfl⟩)
      · obtain ⟨x, hxm, hx1⟩ := List.mem_map.mp (listMax_mem hms2)
        rw [← hx1]
        exact Prod.Lex.monotone_fst (key2 x) (key2 r2) (hub2 x hxm)
    have hget2 : get_item items name =
        (if (1 : ℚ) / 2 ≤ r2.1 then
          (match items.get? (r2.2 - 1) with
           | some e => ResolveRes.found e.2
           | none => ResolveRes.crash)
         else .notFound) := by
      unfold get_item
      rw [hr]
      simp only []
      rw [if_neg (hr1 ▸ hth), hr2]
    by_cases hth2 : (1 : ℚ) / 2 ≤ ms2
    · -- index pass succeeds
      have hr2c : r2 ∈ (scoreIdx items name).filter fun x => decide (x.1 = ms2) := by
        rw [List.mem_filter]
        exact ⟨hr2m, by simp [hr21]⟩
      obtain ⟨mi, hmi⟩ :=
        listMax_isSome (((scoreIdx items name).filter fun x => decide (x.1 = ms2)).map
          (·.2)) (by
            intro hemp
            rw [List.map_eq_nil_iff] at hemp
            rw [hemp] at hr2c
            simp at hr2c)
      have hmir : mi = r2.2 := by
        refine le_antisymm ?_ ?_
        · obtain ⟨x, hxm, hx1⟩ := List.mem_map.mp (listMax_mem hmi)
          rw [← hx1]
          have hxS := (List.mem_filter.mp hxm).1
          have hx1eq : x.1 = ms2 := by
            have := (List.mem_filter.mp hxm).2
            simpa using this
          exact lex_snd_le (hub2 x hxS) (by rw [hx1eq, hr21])
        · exact listMax_ub hmi r2.2 (List.mem_map.mpr ⟨r2, hr2c, rfl⟩)
      rw [hget2]
      unfold resolveSpec
      rw [hms]
      simp only []
      rw [if_neg hth, hms2]
      simp only []
      rw [if_pos hth2, hmi]
      simp only []
      rw [if_pos (hr21 ▸ hth2), hmir]
      obtain ⟨j, hjm, hj⟩ := List.mem_map.mp hr2m
      have hjlen : j < items.length := List.mem_range.mp hjm
      have hj2 : r2.2 = j + 1 := by rw [← hj]
      rw [hj2]
      simp only [Nat.add_sub_cancel]
      rw [List.get?_eq_get hjlen]
      simp
    · -- both passes fail
      rw [hget2]
      rw [if_neg (hr21 ▸ hth2)]
      unfold resolveSpec
      rw [hms]
      simp only []
      rw [if_neg hth, hms2]
      simp only []
      rw [if_neg hth2]

/-! ## Claim C1 -/

/-- C1 (amended): for every non-empty ordered option list with pairwise
distinct labels and every input text, the selection resolver proceeds in
two passes: first it scores each option's case-folded label against the
case-folded input and, if the maximum score is ≥ 0.5, returns the
target of a maximal option — ties broken in favour of the
lexicographically greatest label (not first occurrence); otherwise it
scores the 1-based decimal index string of each option against the raw
input and, if that maximum is ≥ 0.5, returns the target at the greatest
maximal index; otherwise it signals not-found. -/
theorem c1_resolver_two_pass (items : List (String × Option NodeRef)) (name : String)
    (hne : items ≠ []) (hd : items.Pairwise (fun a b => a.1 ≠ b.1)) :
    get_item items name =
      (match resolveSpec items name with
       | some t => ResolveRes.found t
       | none => ResolveRes.notFound) :=
  get_item_eq_resolveSpec items name hne hd

theorem c1_witness :
    ([("a", some (NodeRef.menu 0))] : List (String × Option NodeRef)) ≠ [] ∧
    ([("a", some (NodeRef.menu 0))] : List (String × Option NodeRef)).Pairwise
      (fun a b => a.1 ≠ b.1) ∧
    get_item [("a", some (NodeRef.menu 0))] "b" =
      (match resolveSpec [("a", some (NodeRef.menu 0))] "b" with
       | some t => ResolveRes.found t
       | none => ResolveRes.notFound) :=
  ⟨by simp, by simp, c1_resolver_two_pass _ _ (by simp) (by simp)⟩

/-- C1 as frozen is false on the code: on the options
`[("a", menu 1), ("b", menu 2)]` with input `"ab"` both labels score
`2/3 ≥ 0.5`, a tie; first-occurrence tie-breaking (the claim's words,
`resolveClaimed`) picks `menu 1`, but the code returns `menu 2` — the
`max` reduction on equal ratios falls through to the label comparison
and keeps the greatest label, not the first encountered. -/
theorem c1_counterexample :
    resolveClaimed [("a", some (NodeRef.menu 1)), ("b", some (NodeRef.menu 2))] "ab"
        = some (some (NodeRef.menu 1)) ∧
    get_item [("a", some (NodeRef.menu 1)), ("b", some (NodeRef.menu 2))] "ab"
        = ResolveRes.found (some (NodeRef.menu 2)) := by
  have h1 : similarity (strLower "a") (strLower "ab") = 2 / 3 := by
    have h := similarity_eval "a" "ab" (d := 1) (t := 3)
      (by show indelDist ['a'] ['a', 'b'] = 1; simp [indelDist, lcs]) (by decide) (by decide)
    rw [show strLower "a" = "a" from rfl, show strLower "ab" = "ab" from rfl, h]
    norm_num
  have h2 : similarity (strLower "b") (strLower "ab") = 2 / 3 := by
    have h := similarity_eval "b" "ab" (d := 1) (t := 3)
      (by show indelDist ['b'] ['a', 'b'] = 1; simp [indelDist, lcs]) (by decide) (by decide)
    rw [show strLower "b" = "b" from rfl, show strLower "ab" = "ab" from rfl, h]
    norm_num
  have hsc : scoreItems [("a", some (NodeRef.menu 1)), ("b", some (NodeRef.menu 2))] "ab"
      = [(2 / 3, "a", some (NodeRef.menu 1)), (2 / 3, "b", some (NodeRef.menu 2))] := by
    simp [scoreItems, h1, h2]
  constructor
  · unfold resolveClaimed
    rw [hsc]
    simp only [List.foldl_cons, List.foldl_nil]
    norm_num
  · unfold get_item
    rw [hsc, pyMax, pyMaxFold]
    rw [show pyGT3 (2 / 3, "b", some (NodeRef.menu 2)) (2 / 3, "a", some (NodeRef.menu 1))
        = .ok true by
      unfold pyGT3
      norm_num
      rw [if_neg (show ¬("b" : String) = "a" by decide)]
      rw [show charsLtB ['a'] ['b'] = true by decide]]
    rw [pyMaxFold]
    norm_num

/-! ## Claim C2 -/

/-- C2: for every Menu, the effective option list equals its authored
entries in insertion order followed by synthesized trailing entries: a
("Return to previous menu", parent) entry when the Menu has a parent,
then an ("Exit", terminal) entry exactly when the Menu has no parent or
its include-exit flag is set; in particular a parented Menu with
include-exit false ends with exactly one Return entry and no Exit entry,
and a Return entry is never appended at the root. -/
theorem c2_effective_options (σ : Type) (m : MenuData σ) :
    (items_list m = m.items ++
      (match m.parent with
       | some p => [(retLabel, some (NodeRef.menu p))]
       | none => []) ++
      (if m.parent = none ∨ m.include_exit = true then [(exitLabel, none)] else [])) ∧
    (∀ p, m.parent = some p → m.include_exit = false →
      items_list m = m.items ++ [(retLabel, some (NodeRef.menu p))]) ∧
    (m.parent = none → items_list m = m.items ++ [(exitLabel, none)]) := by
  obtain ⟨its, par, ie, ies, cb⟩ := m
  cases par with
  | none =>
    refine ⟨by simp [items_list], ?_, ?_⟩
    · intro p hp
      simp at hp
    · intro _
      simp [items_list]
  | some p =>
    cases ie with
    | false =>
      refine ⟨by simp [items_list], ?_, ?_⟩
      · intro p' hp _
        simp only [Option.some.injEq] at hp
        subst hp
        simp [items_list]
      · intro h
        simp at h
    | true =>
      refine ⟨by simp [items_list], ?_, ?_⟩
      · intro p' _ hie
        simp at hie
      · intro h
        simp at h

theorem c2_witness :
    items_list menuChild =
      [("x", some (NodeRef.action 0)), (retLabel, some (NodeRef.menu 0))] :=
  (c2_effective_options Nat menuChild).2.1 0 rfl rfl

/-! ## Claim C9 -/

theorem items_list_ne_nil (m : MenuData σ) : items_list m ≠ [] := by
  obtain ⟨its, par, ie, ies, cb⟩ := m
  cases par with
  | none => simp [items_list]
  | some p => cases ie <;> simp [items_list]

/-- C9 (amended): for every Menu whose effective option list has
pairwise distinct labels, the effective option list is non-empty, so the
resolver's two maximum reductions are over non-empty sequences and the
second-pass index lookup is in bounds: the resolver returns a target or
signals not-found, and never fails otherwise.  (Without distinct labels
the tuple comparison inside `max` can raise `TypeError`.) -/
theorem c9_resolve_safe (σ : Type) (m : MenuData σ) (name : String)
    (hd : (items_list m).Pairwise (fun a b => a.1 ≠ b.1)) :
    items_list m ≠ [] ∧
    get_item (items_list m) name ≠ ResolveRes.crash := by
  refine ⟨items_list_ne_nil m, ?_⟩
  rw [get_item_eq_resolveSpec (items_list m) name (items_list_ne_nil m) hd]
  rcases resolveSpec (items_list m) name with - | t <;> simp

theorem c9_witness :
    (items_list menuAlpha).Pairwise (fun a b => a.1 ≠ b.1) ∧
    items_list menuAlpha ≠ [] ∧
    get_item (items_list menuAlpha) "anything" ≠ ResolveRes.crash :=
  ⟨by decide, c9_resolve_safe Nat menuAlpha "anything" (by decide)⟩

/-- C9 as frozen is false on the code: on a Menu with two identically
labelled entries, both label scores are equal and the `max` reduction
compares the two `(label, target)` tuples; the labels are equal, so
Python compares the two target objects and raises `TypeError` — the
resolver fails in a way other than signalling not-found. -/
theorem c9_counterexample :
    get_item (items_list menuDupLabels) "aa" = ResolveRes.crash := by
  have hil : items_list menuDupLabels =
      [("aa", some (NodeRef.menu 1)), ("aa", some (NodeRef.menu 2)), (exitLabel, none)] := by
    simp [items_list, menuDupLabels]
  rw [hil]
  unfold get_item
  rw [show scoreItems
        [("aa", some (NodeRef.menu 1)), ("aa", some (NodeRef.menu 2)), (exitLabel, none)] "aa"
      = (similarity (strLower "aa") (strLower "aa"), "aa", some (NodeRef.menu 1)) ::
        (similarity (strLower "aa") (strLower "aa"), "aa", some (NodeRef.menu 2)) ::
        [(similarity (strLower exitLabel) (strLower "aa"), exitLabel, none)] by
    simp [scoreItems]]
  rw [pyMax, pyMaxFold]
  rw [show pyGT3
        (similarity (strLower "aa") (strLower "aa"), "aa", some (NodeRef.menu 2))
        (similarity (strLower "aa") (strLower "aa"), "aa", some (NodeRef.menu 1))
      = .error () by
    unfold pyGT3
    rw [if_pos rfl, if_pos rfl, if_neg (by decide)]]

/-! ## Claim C7 -/

/-- C7 (amended): for every Menu whose effective option labels are
pairwise distinct, and every input whose similarity to every case-folded
label and to every index string is below 0.5, the resolver signals
not-found, and the Menu's input loop neither changes the state nor
returns: it replaces the prompt with the error line and re-asks on
whatever input remains (no limit on the number of retries). -/
theorem c7_dissimilar_reprompt (σ : Type) (m : MenuData σ) (name : String)
    (hd : (items_list m).Pairwise (fun a b => a.1 ≠ b.1))
    (h1 : ∀ e ∈ items_list m, similarity (strLower e.1) (strLower name) < 1 / 2)
    (h2 : ∀ j, j < (items_list m).length → similarity (Nat.repr (j + 1)) name < 1 / 2) :
    get_item (items_list m) name = ResolveRes.notFound ∧
    ∀ (s : σ) (q : String) (rest : List (Option String)) (log : List String),
      menuLoop (items_list m) s q (some name :: rest) log =
        menuLoop (items_list m) s invalidPrompt rest (log ++ [q]) := by
  have hne := items_list_ne_nil m
  have hSne : scoreItems (items_list m) name ≠ [] := by simp [scoreItems, hne]
  obtain ⟨r, hr, hrm, hub⟩ := pyMax_spec key1 pyGT3 _ hSne (scoreItems_cmp hd)
  have hr1 : r.1 < 1 / 2 := by
    obtain ⟨e, hem, her⟩ := List.mem_map.mp hrm
    rw [← her]
    exact h1 e hem
  have hlen0 : (items_list m).length ≠ 0 := by
    simpa using fun h => hne (List.length_eq_zero.mp h)
  have hS2ne : scoreIdx (items_list m) name ≠ [] := by
    simp [scoreIdx, List.range_eq_nil, hlen0]
  obtain ⟨r2, hr2, hr2m, hub2⟩ :=
    pyMax_spec key2 pyGT2 _ hS2ne (fun x _ c _ => pyGT2_eval x c)
  have hr21 : r2.1 < 1 / 2 := by
    obtain ⟨j, hjm, hjr⟩ := List.mem_map.mp hr2m
    rw [← hjr]
    exact h2 j (List.mem_range.mp hjm)
  have hget : get_item (items_list m) name = .notFound := by
    unfold get_item
    rw [hr]
    simp only []
    rw [if_neg (not_le.mpr hr1), hr2]
    simp only []
    rw [if_neg (not_le.mpr hr21)]
  refine ⟨hget, ?_⟩
  intro s q rest log
  rw [show menuLoop (items_list m) s q (some name :: rest) log =
      (match get_item (items_list m) name with
       | .found t => Except.ok (t, s, ⟨rest, log ++ [q]⟩)
       | .notFound => menuLoop (items_list m) s invalidPrompt rest (log ++ [q])
       | .crash => .error ()) from rfl]
  rw [hget]

theorem c7_witness :
    get_item (items_list menuAlpha) "qqqq" = ResolveRes.notFound ∧
    menuLoop (items_list menuAlpha) (0 : Nat) "Q" [some "qqqq"] [] =
      menuLoop (items_list menuAlpha) 0 invalidPrompt [] ["Q"] := by
  have hitems : items_list menuAlpha =
      [("alpha", some (NodeRef.action 0)), (exitLabel, none)] := by
    simp [items_list, menuAlpha]
  have e1 : similarity (strLower "alpha") (strLower "qqqq") < 1 / 2 := by
    rw [show strLower "alpha" = "alpha" from rfl, show strLower "qqqq" = "qqqq" from rfl,
      similarity_eval "alpha" "qqqq" (d := 9) (t := 9)
        (by show indelDist ['a', 'l', 'p', 'h', 'a'] ['q', 'q', 'q', 'q'] = 9
            simp [indelDist, lcs])
        (by decide) (by decide)]
    norm_num
  have e2 : similarity (strLower exitLabel) (strLower "qqqq") < 1 / 2 := by
    rw [show strLower exitLabel = "exit" from rfl, show strLower "qqqq" = "qqqq" from rfl,
      similarity_eval "exit" "qqqq" (d := 8) (t := 8)
        (by show indelDist ['e', 'x', 'i', 't'] ['q', 'q', 'q', 'q'] = 8
            simp [indelDist, lcs])
        (by decide) (by decide)]
    norm_num
  have h1 : ∀ e ∈ items_list menuAlpha,
      similarity (strLower e.1) (strLower "qqqq") < 1 / 2 := by
    rw [hitems]
    intro e he
    rcases List.mem_cons.mp he with rfl | he
    · exact e1
    · rcases List.mem_cons.mp he with rfl | he
      · exact e2
      · simp at he
  have h2 : ∀ j, j < (items_list menuAlpha).length →
      similarity (Nat.repr (j + 1)) "qqqq" < 1 / 2 := by
    rw [hitems]
    intro j hj
    simp only [List.length_cons, List.length_nil] at hj
    interval_cases j
    · rw [show (Nat.repr 1 : String) = "1" from rfl,
        similarity_eval "1" "qqqq" (d := 5) (t := 5)
          (by show indelDist ['1'] ['q', 'q', 'q', 'q'] = 5; simp [indelDist, lcs])
          (by decide) (by decide)]
      norm_num
    · rw [show (Nat.repr 2 : String) = "2" from rfl,
        similarity_eval "2" "qqqq" (d := 5) (t := 5)
          (by show indelDist ['2'] ['q', 'q', 'q', 'q'] = 5; simp [indelDist, lcs])
          (by decide) (by decide)]
      norm_num
  have hd : (items_list menuAlpha).Pairwise (fun a b => a.1 ≠ b.1) := by decide
  exact ⟨(c7_dissimilar_reprompt Nat menuAlpha "qqqq" hd h1 h2).1,
    (c7_dissimilar_reprompt Nat menuAlpha "qqqq" hd h1 h2).2 0 "Q" [] []⟩

/-- C7 as frozen is false on the code: on a Menu with two identically
labelled entries, an input dissimilar (score < 0.5) to every label and
every index string does not reach the not-found branch — the `max`
reduction ties the two equal labels and raises `TypeError` while
comparing their targets. -/
theorem c7_counterexample :
    similarity (strLower "aa") (strLower "zzz") < 1 / 2 ∧
    similarity (strLower exitLabel) (strLower "zzz") < 1 / 2 ∧
    (∀ j, j < (items_list menuDupLabels).length →
      similarity (Nat.repr (j + 1)) "zzz" < 1 / 2) ∧
    get_item (items_list menuDupLabels) "zzz" = ResolveRes.crash := by
  refine ⟨?_, ?_, ?_, ?_⟩
  · rw [show strLower "aa" = "aa" from rfl, show strLower "zzz" = "zzz" from rfl,
      similarity_eval "aa" "zzz" (d := 5) (t := 5)
        (by show indelDist ['a', 'a'] ['z', 'z', 'z'] = 5; simp [indelDist, lcs])
        (by decide) (by decide)]
    norm_num
  · rw [show strLower exitLabel = "exit" from rfl, show strLower "zzz" = "zzz" from rfl,
      similarity_eval "exit" "zzz" (d := 7) (t := 7)
        (by show indelDist ['e', 'x', 'i', 't'] ['z', 'z', 'z'] = 7; simp [indelDist, lcs])
        (by decide) (by decide)]
    norm_num
  · have hlen : (items_list menuDupLabels).length = 3 := by
      simp [items_list, menuDupLabels]
    rw [hlen]
    intro j hj
    interval_cases j
    · rw [show (Nat.repr 1 : String) = "1" from rfl,
        similarity_eval "1" "zzz" (d := 4) (t := 4)
          (by show indelDist ['1'] ['z', 'z', 'z'] = 4; simp [indelDist, lcs])
          (by decide) (by decide)]
      norm_num
    · rw [show (Nat.repr 2 : String) = "2" from rfl,
        similarity_eval "2" "zzz" (d := 4) (t := 4)
          (by show indelDist ['2'] ['z', 'z', 'z'] = 4; simp [indelDist, lcs])
          (by decide) (by decide)]
      norm_num
    · rw [show (Nat.repr 3 : String) = "3" from rfl,
        similarity_eval "3" "zzz" (d := 4) (t := 4)
          (by show indelDist ['3'] ['z', 'z', 'z'] = 4; simp [indelDist, lcs])
          (by decide) (by decide)]
      norm_num
  · have hil : items_list menuDupLabels =
        [("aa", some (NodeRef.menu 1)), ("aa", some (NodeRef.menu 2)), (exitLabel, none)] := by
      simp [items_list, menuDupLabels]
    rw [hil]
    unfold get_item
    rw [show scoreItems
          [("aa", some (NodeRef.menu 1)), ("aa", some (NodeRef.menu 2)), (exitLabel, none)] "zzz"
        = (similarity (strLower "aa") (strLower "zzz"), "aa", some (NodeRef.menu 1)) ::
          (similarity (strLower "aa") (strLower "zzz"), "aa", some (NodeRef.menu 2)) ::
          [(similarity (strLower exitLabel) (strLower "zzz"), exitLabel, none)] by
      simp [scoreItems]]
    rw [pyMax, pyMaxFold]
    rw [show pyGT3
          (similarity (strLower "aa") (strLower "zzz"), "aa", some (NodeRef.menu 2))
          (similarity (strLower "aa") (strLower "zzz"), "aa", some (NodeRef.menu 1))
        = .error () by
      unfold pyGT3
      rw [if_pos rfl, if_pos rfl, if_neg (by decide)]]

/-! ## Claim C3 -/

/-- C3 (amended): `normalize_callback` raises at attach time if and only
if the callback declares four or more parameters, or exactly two
parameters neither of which is named `ask` or `tell`.  No other name
check is performed — in particular a three-parameter callback is
accepted whatever its parameter names — and some accepted shapes (e.g.
parameters `(ask, foo)`) fail only when the wrapper is invoked at run
time. -/
theorem c3_normalize_error_iff (V R : Type) (cb : PyCallback V R) :
    normalizeCb cb = Except.error () ↔
      (4 ≤ cb.params.length ∨
       (cb.params.length = 2 ∧ "ask" ∉ cb.params ∧ "tell" ∉ cb.params)) := by
  unfold normalizeCb
  by_cases h3 : cb.params.length = 3
  · rw [if_pos h3]
    simp [h3]
  · rw [if_neg h3]
    by_cases h2 : cb.params.length = 2
    · rw [if_pos h2]
      by_cases ha : "ask" ∈ cb.params <;> by_cases ht : "tell" ∈ cb.params
      · rw [if_neg (by simp [ha, ht]), if_neg (by simp [ha, ht]), if_pos ⟨ha, ht⟩]
        simp [h2, ha]
      · rw [if_pos ⟨ha, ht⟩]
        simp [h2, ha]
      · rw [if_neg (by simp [ha, ht]), if_pos ⟨ha, ht⟩]
        simp [h2, ht]
      · rw [if_neg (by simp [ha, ht]), if_neg (by simp [ha, ht]),
          if_neg (by simp [ha, ht])]
        simp [h2, ha, ht]
    · rw [if_neg h2]
      by_cases h1 : cb.params.length = 1
      · rw [if_pos h1]
        split_ifs <;> simp [h1, h2]
      · rw [if_neg h1]
        by_cases h0 : cb.params.length = 0
        · rw [if_pos h0]
          simp [h0]
        · rw [if_neg h0]
          simp only [true_iff]
          exact Or.inl (by omega)

/-- C3 as frozen is false on the code: a three-parameter callback with
the unrecognized names `(a, b, c)` is accepted unchanged at attach time
(the claim predicts a normalization error), and the two-parameter shape
`(ask, foo)` is accepted at attach time but its wrapper's invocation
fails — the error is deferred to run time. -/
theorem c3_counterexample :
    normalizeCb (⟨["a", "b", "c"], fun _ => some 0⟩ : PyCallback Nat Nat) =
      Except.ok ⟨["a", "b", "c"], fun _ => some 0⟩ ∧
    ("b" : String) ≠ "ask" ∧ ("b" : String) ≠ "tell" ∧
    normalizeCb (⟨["ask", "foo"], fun _ => some 0⟩ : PyCallback Nat Nat) =
      Except.ok (wrapStateAsk ⟨["ask", "foo"], fun _ => some 0⟩) ∧
    invoke (wrapStateAsk (⟨["ask", "foo"], fun _ => some 0⟩ : PyCallback Nat Nat))
      [1, 2, 3] [] = none :=
  ⟨rfl, by decide, by decide, rfl, rfl⟩

/-! ## Claim C4 -/

/-- C4: for every run state, ask capability and tell capability:
the canonical wrapper of a callback declared with only a `tell`-named
parameter invokes the original with exactly the tell capability, bound
by keyword, and nothing else; the canonical wrapper of a callback
declared with a leading non-keyword parameter plus an `ask`-named
parameter invokes the original with exactly the state (positionally,
bound to the leading parameter) and the ask capability (by keyword); in
both cases the wrapper's result equals the original callback's
result. -/
theorem c4_wrapper_invocation (V R : Type) (bodyf bodyg : List (String × V) → Option R)
    (p : String) (hp1 : p ≠ "ask") (hp2 : p ≠ "tell") (s a t : V) :
    normalizeCb ⟨["tell"], bodyf⟩ = .ok (wrapTell ⟨["tell"], bodyf⟩) ∧
    invoke (wrapTell ⟨["tell"], bodyf⟩) [s, a, t] [] =
      invoke ⟨["tell"], bodyf⟩ [] [("tell", t)] ∧
    invoke ⟨["tell"], bodyf⟩ [] [("tell", t)] = bodyf [("tell", t)] ∧
    normalizeCb ⟨[p, "ask"], bodyg⟩ = .ok (wrapStateAsk ⟨[p, "ask"], bodyg⟩) ∧
    invoke (wrapStateAsk ⟨[p, "ask"], bodyg⟩) [s, a, t] [] =
      invoke ⟨[p, "ask"], bodyg⟩ [s] [("ask", a)] ∧
    invoke ⟨[p, "ask"], bodyg⟩ [s] [("ask", a)] = bodyg [(p, s), ("ask", a)] := by
  refine ⟨rfl, rfl, rfl, ?_, rfl, rfl⟩
  have hmem : ("ask" ∈ [p, "ask"] ∧ "tell" ∉ [p, "ask"]) := by
    constructor
    · simp
    · simp [Ne.symm hp2]
  unfold normalizeCb
  rw [if_neg (by simp), if_pos (by simp), if_pos hmem]

theorem c4_witness :
    ("x" : String) ≠ "ask" ∧ ("x" : String) ≠ "tell" ∧
    (normalizeCb (⟨["tell"], fun _ => some 0⟩ : PyCallback Nat Nat) =
        .ok (wrapTell ⟨["tell"], fun _ => some 0⟩) ∧
      invoke (wrapTell (⟨["tell"], fun _ => some 0⟩ : PyCallback Nat Nat)) [1, 2, 3] [] =
        invoke (⟨["tell"], fun _ => some 0⟩ : PyCallback Nat Nat) [] [("tell", 3)] ∧
      invoke (⟨["tell"], fun _ => some 0⟩ : PyCallback Nat Nat) [] [("tell", 3)] =
        (fun _ => some 0) [("tell", 3)] ∧
      normalizeCb (⟨["x", "ask"], fun _ => some 1⟩ : PyCallback Nat Nat) =
        .ok (wrapStateAsk ⟨["x", "ask"], fun _ => some 1⟩) ∧
      invoke (wrapStateAsk (⟨["x", "ask"], fun _ => some 1⟩ : PyCallback Nat Nat))
          [1, 2, 3] [] =
        invoke (⟨["x", "ask"], fun _ => some 1⟩ : PyCallback Nat Nat) [1] [("ask", 2)] ∧
      invoke (⟨["x", "ask"], fun _ => some 1⟩ : PyCallback Nat Nat) [1] [("ask", 2)] =
        (fun _ => some 1) [("x", 1), ("ask", 2)]) :=
  ⟨by decide, by decide,
    c4_wrapper_invocation Nat Nat (fun _ => some 0) (fun _ => some 1) "x"
      (by decide) (by decide) 1 2 3⟩

/-! ## Claim C5 -/

/-- C5 (amended): for every Action node, the transition never prompts;
it invokes the attached canonical callback if one is present, updates
the state to the callback's return value, and returns the Action's
parent as the next node — unconditionally.  This variant carries no
flow handle, so a callback cannot redirect the transition anywhere
else; with no callback attached the world (input stream and displayed
lines) is untouched. -/
theorem c5_action_transition (σ : Type) (A : Arena σ) (i : Nat) (a : ActionData σ)
    (s : σ) (w : World) (hA : A.actions.get? i = some a) :
    nodeNext A (NodeRef.action i) s w = .ok (actionNext a s w) ∧
    (actionNext a s w).1 = some (NodeRef.menu a.parent) ∧
    (a.callback = none → actionNext a s w = (some (NodeRef.menu a.parent), s, w)) ∧
    (∀ cb, a.callback = some cb → (actionNext a s w).2 = cb s w) := by
  refine ⟨?_, rfl, ?_, ?_⟩
  · simp only [nodeNext]
    rw [hA]
  · intro h
    simp [actionNext, actionCbStep, h]
  · intro cb h
    simp [actionNext, actionCbStep, h]

theorem c5_witness :
    nodeNext (⟨[], [⟨0, none⟩]⟩ : Arena Nat) (NodeRef.action 0) 5 ⟨[], []⟩ =
      .ok (actionNext ⟨0, none⟩ 5 ⟨[], []⟩) ∧
    (actionNext (⟨0, none⟩ : ActionData Nat) 5 ⟨[], []⟩).1 = some (NodeRef.menu 0) ∧
    actionNext (⟨0, none⟩ : ActionData Nat) 5 ⟨[], []⟩ =
      (some (NodeRef.menu 0), 5, ⟨[], []⟩) := by
  have h := c5_action_transition Nat ⟨[], [⟨0, none⟩]⟩ 0 ⟨0, none⟩ 5 ⟨[], []⟩ rfl
  exact ⟨h.1, h.2.1, h.2.2.1 rfl⟩

/-- C5's redirect clause is false on the code: there is no flow handle —
a callback receives only `(state, ask, tell)` and `Action.next` returns
`self.parent` unconditionally, so no callback whatsoever can make the
next node of the concrete action (parent = menu 0) differ from its
parent. -/
theorem c5_counterexample :
    ¬ ∃ cb : Cb Nat, (actionNext (⟨0, some cb⟩ : ActionData Nat) 0 ⟨[], []⟩).1
        ≠ some (NodeRef.menu 0) := by
  rintro ⟨cb, h⟩
  exact h rfl

/-! ## Claim C6 -/

theorem runSteps_none (A : Arena σ) (n : Nat) (s : σ) (w : World) :
    runSteps A n none s w = .done s w := by
  cases n <;> rfl

/-- C6: for every Menu transition, whenever `ask` returns the absence
value in the prompt loop, the transition immediately returns the
terminal sentinel together with the state as it was after the Menu's
own callback (if any) ran, and the top-level run loop then ends with a
graceful (non-crash) termination, whatever fuel remains. -/
theorem c6_end_of_input (σ : Type) (A : Arena σ) (i : Nat) (m : MenuData σ)
    (s : σ) (w : World) (rest : List (Option String))
    (hA : A.menus.get? i = some m)
    (hin : (menuCbStep m s w).2.inputs = none :: rest) :
    menuNext m s w = .ok (none, (menuCbStep m s w).1,
      ⟨rest, (menuCbStep m s w).2.log ++ [menuQuestion (items_list m)]⟩) ∧
    ∀ fuel, runSteps A (fuel + 1) (some (NodeRef.menu i)) s w =
      RunRes.done (menuCbStep m s w).1
        ⟨rest, (menuCbStep m s w).2.log ++ [menuQuestion (items_list m)]⟩ := by
  have h1 : menuNext m s w = .ok (none, (menuCbStep m s w).1,
      ⟨rest, (menuCbStep m s w).2.log ++ [menuQuestion (items_list m)]⟩) := by
    unfold menuNext
    rw [hin, menuLoop]
  refine ⟨h1, ?_⟩
  intro fuel
  rw [show runSteps A (fuel + 1) (some (NodeRef.menu i)) s w =
      (match nodeNext A (NodeRef.menu i) s w with
       | .error _ => RunRes.crashed
       | .ok (nxt, s', w') => runSteps A fuel nxt s' w') from rfl]
  rw [show nodeNext A (NodeRef.menu i) s w = menuNext m s w by
    simp only [nodeNext]
    rw [hA]]
  rw [h1]
  exact runSteps_none A fuel _ _

theorem c6_witness :
    menuNext menuAlpha 7 ⟨[none], []⟩ =
      .ok (none, 7, ⟨[], [menuQuestion (items_list menuAlpha)]⟩) ∧
    runSteps (⟨[menuAlpha], []⟩ : Arena Nat) 1 (some (NodeRef.menu 0)) 7 ⟨[none], []⟩ =
      RunRes.done 7 ⟨[], [menuQuestion (items_list menuAlpha)]⟩ := by
  have h := c6_end_of_input Nat ⟨[menuAlpha], []⟩ 0 menuAlpha 7 ⟨[none], []⟩ [] rfl rfl
  exact ⟨h.1, h.2 0⟩

/-! ## Claim C10 -/

theorem applyOp_menu_preserved (A : Arena σ) (op : BuildOp σ) (i : Nat) (m : MenuData σ)
    (h : A.menus.get? i = some m) :
    ∃ m', (applyOp A op).menus.get? i = some m' ∧ m'.parent = m.parent ∧
      ∃ suf, m'.items = m.items ++ suf := by
  obtain ⟨hlt, -⟩ := List.get?_eq_some.mp h
  cases op with
  | addMenu p nm ie ies =>
    cases hpm : A.menus.get? p with
    | none =>
      refine ⟨m, ?_, rfl, [], by simp⟩
      simp only [applyOp]
      rw [hpm]
      exact h
    | some pm =>
      by_cases hip : i = p
      · subst hip
        rw [h] at hpm
        obtain rfl := Option.some.inj hpm
        refine ⟨{ m with items := m.items ++ [(nm, some (NodeRef.menu A.menus.length))] },
          ?_, rfl, [(nm, some (NodeRef.menu A.menus.length))], rfl⟩
        simp only [applyOp]
        rw [h]
        rw [List.get?_append (by simp [hlt])]
        exact List.get?_set_eq_of_lt _ hlt
      · refine ⟨m, ?_, rfl, [], by simp⟩
        simp only [applyOp]
        rw [hpm]
        rw [List.get?_append (by simp [hlt])]
        rw [List.get?_set_ne _ _ (fun hh => hip hh.symm)]
        exact h
  | addAction p nm =>
    cases hpm : A.menus.get? p with
    | none =>
      refine ⟨m, ?_, rfl, [], by simp⟩
      simp only [applyOp]
      rw [hpm]
      exact h
    | some pm =>
      by_cases hip : i = p
      · subst hip
        rw [h] at hpm
        obtain rfl := Option.some.inj hpm
        refine ⟨{ m with items := m.items ++ [(nm, some (NodeRef.action A.actions.length))] },
          ?_, rfl, [(nm, some (NodeRef.action A.actions.length))], rfl⟩
        simp only [applyOp]
        rw [h]
        exact List.get?_set_eq_of_lt _ hlt
      · refine ⟨m, ?_, rfl, [], by simp⟩
        simp only [applyOp]
        rw [hpm]
        rw [List.get?_set_ne _ _ (fun hh => hip hh.symm)]
        exact h
  | setMenuCb j cb =>
    cases hj : A.menus.get? j with
    | none =>
      refine ⟨m, ?_, rfl, [], by simp⟩
      simp only [applyOp]
      rw [hj]
      exact h
    | some mm =>
      by_cases hij : i = j
      · subst hij
        rw [h] at hj
        obtain rfl := Option.some.inj hj
        refine ⟨{ m with callback := cb }, ?_, rfl, [], by simp⟩
        simp only [applyOp]
        rw [h]
        exact List.get?_set_eq_of_lt _ hlt
      · refine ⟨m, ?_, rfl, [], by simp⟩
        simp only [applyOp]
        rw [hj]
        rw [List.get?_set_ne _ _ (fun hh => hij hh.symm)]
        exact h
  | setActionCb j cb =>
    cases hj : A.actions.get? j with
    | none =>
      refine ⟨m, ?_, rfl, [], by simp⟩
      simp only [applyOp]
      rw [hj]
      exact h
    | some aa =>
      refine ⟨m, ?_, rfl, [], by simp⟩
      simp only [applyOp]
      rw [hj]
      exact h

theorem applyOps_menu_preserved (ops : List (BuildOp σ)) :
    ∀ (A : Arena σ) (i : Nat) (m : MenuData σ), A.menus.get? i = some m →
      ∃ m', (applyOps A ops).menus.get? i = some m' ∧ m'.parent = m.parent ∧
        ∃ suf, m'.items = m.items ++ suf := by
  induction ops with
  | nil => exact fun A i m h => ⟨m, h, rfl, [], by simp⟩
  | cons op ops ih =>
    intro A i m h
    obtain ⟨m1, h1, hp1, s1, hs1⟩ := applyOp_menu_preserved A op i m h
    obtain ⟨m2, h2, hp2, s2, hs2⟩ := ih (applyOp A op) i m1 h1
    exact ⟨m2, h2, by rw [hp2, hp1], s1 ++ s2,
      by rw [hs2, hs1, List.append_assoc]⟩

theorem applyOp_action_preserved (A : Arena σ) (op : BuildOp σ) (i : Nat) (a : ActionData σ)
    (h : A.actions.get? i = some a) :
    ∃ a', (applyOp A op).actions.get? i = some a' ∧ a'.parent = a.parent := by
  obtain ⟨hlt, -⟩ := List.get?_eq_some.mp h
  cases op with
  | addMenu p nm ie ies =>
    cases hpm : A.menus.get? p with
    | none =>
      refine ⟨a, ?_, rfl⟩
      simp only [applyOp]
      rw [hpm]
      exact h
    | some pm =>
      refine ⟨a, ?_, rfl⟩
      simp only [applyOp]
      rw [hpm]
      exact h
  | addAction p nm =>
    cases hpm : A.menus.get? p with
    | none =>
      refine ⟨a, ?_, rfl⟩
      simp only [applyOp]
      rw [hpm]
      exact h
    | some pm =>
      refine ⟨a, ?_, rfl⟩
      simp only [applyOp]
      rw [hpm]
      rw [List.get?_append hlt]
      exact h
  | setMenuCb j cb =>
    cases hj : A.menus.get? j with
    | none =>
      refine ⟨a, ?_, rfl⟩
      simp only [applyOp]
      rw [hj]
      exact h
    | some mm =>
      refine ⟨a, ?_, rfl⟩
      simp only [applyOp]
      rw [hj]
      exact h
  | setActionCb j cb =>
    cases hj : A.actions.get? j with
    | none =>
      refine ⟨a, ?_, rfl⟩
      simp only [applyOp]
      rw [hj]
      exact h
    | some aa =>
      by_cases hij : i = j
      · subst hij
        rw [h] at hj
        obtain rfl := Option.some.inj hj
        refine ⟨{ a with callback := cb }, ?_, rfl⟩
        simp only [applyOp]
        rw [h]
        exact List.get?_set_eq_of_lt _ hlt
      · refine ⟨a, ?_, rfl⟩
        simp only [applyOp]
        rw [hj]
        rw [List.get?_set_ne _ _ (fun hh => hij hh.symm)]
        exact h

theorem applyOps_action_preserved (ops : List (BuildOp σ)) :
    ∀ (A : Arena σ) (i : Nat) (a : ActionData σ), A.actions.get? i = some a →
      ∃ a', (applyOps A ops).actions.get? i = some a' ∧ a'.parent = a.parent := by
  induction ops with
  | nil => exact fun A i a h => ⟨a, h, rfl⟩
  | cons op ops ih =>
    intro A i a h
    obtain ⟨a1, h1, hp1⟩ := applyOp_action_preserved A op i a h
    obtain ⟨a2, h2, hp2⟩ := ih (applyOp A op) i a1 h1
    exact ⟨a2, h2, by rw [hp2, hp1]⟩

theorem applyOp_addMenu_spec (A : Arena σ) (p : Nat) (nm : String) (ie ies : Option Bool)
    (pm : MenuData σ) (h : A.menus.get? p = some pm) :
    (applyOp A (.addMenu p nm ie ies)).menus.get? A.menus.length =
      some ⟨[], some p, ie.getD pm.include_exit_on_submenus,
        ies.getD pm.include_exit_on_submenus, none⟩ ∧
    (applyOp A (.addMenu p nm ie ies)).menus.get? p =
      some { pm with items := pm.items ++ [(nm, some (NodeRef.menu A.menus.length))] } := by
  obtain ⟨hlt, -⟩ := List.get?_eq_some.mp h
  constructor
  · simp only [applyOp]
    rw [h]
    have hcl := List.get?_concat_length
      (A.menus.set p { pm with items := pm.items ++ [(nm, some (NodeRef.menu A.menus.length))] })
      (⟨[], some p, ie.getD pm.include_exit_on_submenus,
        ies.getD pm.include_exit_on_submenus, none⟩ : MenuData σ)
    rw [List.length_set] at hcl
    exact hcl
  · simp only [applyOp]
    rw [h]
    rw [List.get?_append (by simp [hlt])]
    exact List.get?_set_eq_of_lt _ hlt

theorem applyOp_addAction_spec (A : Arena σ) (p : Nat) (nm : String)
    (pm : MenuData σ) (h : A.menus.get? p = some pm) :
    (applyOp A (.addAction p nm)).actions.get? A.actions.length = some ⟨p, none⟩ ∧
    (applyOp A (.addAction p nm)).menus.get? p =
      some { pm with items := pm.items ++ [(nm, some (NodeRef.action A.actions.length))] } := by
  obtain ⟨hlt, -⟩ := List.get?_eq_some.mp h
  constructor
  · simp only [applyOp]
    rw [h]
    exact List.get?_concat_length _ _
  · simp only [applyOp]
    rw [h]
    exact List.get?_set_eq_of_lt _ hlt

theorem ret_mem_items_list (m : MenuData σ) (p : Nat) (hp : m.parent = some p) :
    (retLabel, some (NodeRef.menu p)) ∈ items_list m := by
  obtain ⟨its, par, ie, ies, cb⟩ := m
  simp only at hp
  subst hp
  cases ie <;> simp [items_list]

/-- C10: every node other than the root is created only by a Menu's
add-submenu (`Menu.menu`) or add-action (`Menu.action`) operation, which
sets the new child's parent reference to exactly the creating Menu and
appends the (label, child) entry at the end of that Menu's entry list;
no operation afterwards ever changes a node's parent, and entries are
only ever appended (never removed or reordered); consequently the
synthesized "Return to previous menu" entry of the created submenu
targets the Menu under which it was created. -/
theorem c10_builder_invariants (σ : Type) (pre post : List (BuildOp σ)) (p : Nat)
    (nm nm2 : String) (ie ies : Option Bool) (pm : MenuData σ)
    (hpm : (applyOps (initArena σ) pre).menus.get? p = some pm) :
    (∃ m', (applyOps (initArena σ) (pre ++ BuildOp.addMenu p nm ie ies :: post)).menus.get?
        ((applyOps (initArena σ) pre).menus.length) = some m' ∧
      m'.parent = some p ∧
      (retLabel, some (NodeRef.menu p)) ∈ items_list m') ∧
    (∃ pm' suf,
      (applyOps (initArena σ) (pre ++ BuildOp.addMenu p nm ie ies :: post)).menus.get? p
          = some pm' ∧
      pm'.parent = pm.parent ∧
      pm'.items = pm.items ++
        [(nm, some (NodeRef.menu ((applyOps (initArena σ) pre).menus.length)))] ++ suf) ∧
    (∃ a', (applyOps (initArena σ) (pre ++ BuildOp.addAction p nm2 :: post)).actions.get?
        ((applyOps (initArena σ) pre).actions.length) = some a' ∧
      a'.parent = p) ∧
    (∀ (A : Arena σ) (ops : List (BuildOp σ)) (i : Nat) (mm : MenuData σ),
      A.menus.get? i = some mm →
      ∃ m', (applyOps A ops).menus.get? i = some m' ∧ m'.parent = mm.parent ∧
        ∃ suf, m'.items = mm.items ++ suf) ∧
    (∀ (A : Arena σ) (ops : List (BuildOp σ)) (i : Nat) (aa : ActionData σ),
      A.actions.get? i = some aa →
      ∃ a', (applyOps A ops).actions.get? i = some a' ∧ a'.parent = aa.parent) := by
  have hsplit : ∀ op : BuildOp σ, applyOps (initArena σ) (pre ++ op :: post) =
      applyOps (applyOp (applyOps (initArena σ) pre) op) post := by
    intro op
    simp [applyOps, List.foldl_append]
  refine ⟨?_, ?_, ?_, fun A ops i mm h => applyOps_menu_preserved ops A i mm h,
    fun A ops i aa h => applyOps_action_preserved ops A i aa h⟩
  · rw [hsplit]
    have h1 := (applyOp_addMenu_spec (applyOps (initArena σ) pre) p nm ie ies pm hpm).1
    obtain ⟨m', hm', hpar, suf, -⟩ := applyOps_menu_preserved post _ _ _ h1
    refine ⟨m', hm', by rw [hpar], ret_mem_items_list m' p (by rw [hpar])⟩
  · rw [hsplit]
    have h2 := (applyOp_addMenu_spec (applyOps (initArena σ) pre) p nm ie ies pm hpm).2
    obtain ⟨pm', hpm', hpar, suf, hs⟩ := applyOps_menu_preserved post _ _ _ h2
    exact ⟨pm', suf, hpm', hpar, hs⟩
  · rw [hsplit]
    have h3 := (applyOp_addAction_spec (applyOps (initArena σ) pre) p nm2 pm hpm).1
    obtain ⟨a', ha', hpar⟩ := applyOps_action_preserved post _ _ _ h3
    exact ⟨a', ha', hpar⟩

theorem c10_witness :
    (∃ m', (applyOps (initArena Nat) [BuildOp.addMenu 0 "x" none none]).menus.get? 1
        = some m' ∧
      m'.parent = some 0 ∧ (retLabel, some (NodeRef.menu 0)) ∈ items_list m') ∧
    (∃ a', (applyOps (initArena Nat) [BuildOp.addAction 0 "y"]).actions.get? 0 = some a' ∧
      a'.parent = 0) := by
  have h := c10_builder_invariants Nat [] [] 0 "x" "y" none none
    ⟨[], none, false, false, none⟩ rfl
  exact ⟨h.1, h.2.2.1⟩

end Phonetree
